import Mathlib

/-!
Verification of the core of the tuck session manager against its specification.

The Go sources are shallowly embedded: byte strings become `List Nat`
(each element a byte value), fallible operations return `Option`, and the
stateful loops of the server and client become structurally recursive
functions over the remaining input.  Definitions follow the Go source of
the repository; definitions derived instead from the words of the specification
are marked as such in their doc comments.
-/

namespace Tuck

/-! ## Framed IPC codec (`writeMessage` / `readMessage`, server source) -/

/-- Message type codes from the server source: Input = 1. -/
def MsgInput : Nat := 1

/-- Message type code Output = 2. -/
def MsgOutput : Nat := 2

/-- Message type code Resize = 3. -/
def MsgResize : Nat := 3

/-- Message type code Exit = 4. -/
def MsgExit : Nat := 4

/-- Big-endian 4-byte encoding of a 32-bit value, as produced by
`binary.BigEndian.PutUint32`. -/
def be32 (n : Nat) : List Nat :=
  [n / 16777216 % 256, n / 65536 % 256, n / 256 % 256, n % 256]

/-- Big-endian decoding of four bytes, as `binary.BigEndian.Uint32` does. -/
def readBE32 (a b c d : Nat) : Nat :=
  ((a * 256 + b) * 256 + c) * 256 + d

/-- Embedding of `writeMessage`: emit a 5-byte header (1 type byte, 4
length bytes big-endian, the length taken as `uint32(len(data))`) followed
by the payload. -/
def writeMessage (msgType : Nat) (data : List Nat) : List Nat :=
  msgType :: be32 (data.length % 4294967296) ++ data

/-- Embedding of `readMessage` over a byte stream modelled as a finite
list (the end of the list is end-of-stream).  Reads a 5-byte header
(`io.ReadFull` fails if fewer bytes remain), rejects a declared length
above 1 MiB before touching the payload, then reads exactly `length`
payload bytes.  `none` models any returned error. -/
def readMessage : List Nat → Option (Nat × List Nat × List Nat)
  | t :: a :: b :: c :: d :: rest =>
    if readBE32 a b c d > 1048576 then none
    else if rest.length < readBE32 a b c d then none
    else some (t, rest.take (readBE32 a b c d), rest.drop (readBE32 a b c d))
  | _ => none

theorem readBE32_be32 {n : Nat} (h : n < 4294967296) :
    readBE32 (n / 16777216 % 256) (n / 65536 % 256) (n / 256 % 256) (n % 256) = n := by
  unfold readBE32
  omega

theorem readMessage_writeMessage (msgType : Nat) (data rest : List Nat)
    (h : data.length ≤ 1048576) :
    readMessage (writeMessage msgType data ++ rest) = some (msgType, data, rest) := by
  have hlt : data.length < 4294967296 := by omega
  have hmod : data.length % 4294967296 = data.length := Nat.mod_eq_of_lt hlt
  have hdec : readBE32 (data.length / 16777216 % 256) (data.length / 65536 % 256)
      (data.length / 256 % 256) (data.length % 256) = data.length := readBE32_be32 hlt
  show readMessage
      (msgType :: (data.length % 4294967296) / 16777216 % 256 ::
        (data.length % 4294967296) / 65536 % 256 ::
        (data.length % 4294967296) / 256 % 256 ::
        (data.length % 4294967296) % 256 :: (data ++ rest)) = some (msgType, data, rest)
  rw [hmod]
  simp only [readMessage]
  rw [hdec, if_neg (by omega), if_neg (by simp [List.length_append])]
  rw [List.take_left, List.drop_left]

/-! ## Replay buffer (`Server.handlePTYOutput`, server source) -/

/-- Embedding of the buffer update in `Server.handlePTYOutput`: append a
chunk read from the PTY, then, if the buffer exceeds 1 MiB, keep only its
last 1048576 bytes. -/
def appendOutput (outputBuf chunk : List Nat) : List Nat :=
  if (outputBuf ++ chunk).length > 1048576 then
    (outputBuf ++ chunk).drop ((outputBuf ++ chunk).length - 1048576)
  else outputBuf ++ chunk

/-- Replay buffer contents after the PTY reader has processed the given
sequence of non-empty reads, starting from the empty buffer. -/
def replayAfter (chunks : List (List Nat)) : List Nat :=
  chunks.foldl appendOutput []

theorem appendOutput_length_le (outputBuf chunk : List Nat) :
    (appendOutput outputBuf chunk).length ≤ 1048576 := by
  unfold appendOutput
  by_cases h : (outputBuf ++ chunk).length > 1048576
  · simp only [if_pos h, List.length_drop]
    omega
  · simp only [if_neg h]
    omega

theorem appendOutput_suffix {outputBuf hist : List Nat} (chunk : List Nat)
    (h : outputBuf <:+ hist) : appendOutput outputBuf chunk <:+ hist ++ chunk := by
  obtain ⟨pre, hpre⟩ := h
  have h1 : outputBuf ++ chunk <:+ hist ++ chunk :=
    ⟨pre, by rw [← List.append_assoc, hpre]⟩
  unfold appendOutput
  by_cases hl : (outputBuf ++ chunk).length > 1048576
  · simp only [if_pos hl]
    exact (List.drop_suffix _ _).trans h1
  · simpa only [if_neg hl] using h1

theorem foldl_appendOutput_length_le (chunks : List (List Nat)) (buf : List Nat)
    (h : buf.length ≤ 1048576) :
    (chunks.foldl appendOutput buf).length ≤ 1048576 := by
  induction chunks generalizing buf with
  | nil => simpa using h
  | cons c cs ih =>
    simpa [List.foldl_cons] using ih (appendOutput buf c) (appendOutput_length_le buf c)

theorem replayAfter_length_le (chunks : List (List Nat)) :
    (replayAfter chunks).length ≤ 1048576 :=
  foldl_appendOutput_length_le chunks [] (by simp)

theorem foldl_appendOutput_suffix (chunks : List (List Nat)) (buf hist : List Nat)
    (h : buf <:+ hist) :
    chunks.foldl appendOutput buf <:+ hist ++ chunks.flatten := by
  induction chunks generalizing buf hist with
  | nil => simpa using h
  | cons c cs ih =>
    have step : appendOutput buf c <:+ hist ++ c := appendOutput_suffix c h
    have := ih (appendOutput buf c) (hist ++ c) step
    simpa [List.append_assoc] using this

theorem replayAfter_suffix (chunks : List (List Nat)) :
    replayAfter chunks <:+ chunks.flatten := by
  have := foldl_appendOutput_suffix chunks [] [] (List.suffix_refl [])
  simpa using this

/-! ## Detach keys and the input state machine of the client (client source) -/

/-- Embedding of the `DetachKey` struct: a control byte (`CtrlKey`), or an
escape-sequence character (`EscapeChar`); the unused field is 0. -/
structure DetachKey where
  ctrlKey : Nat
  escapeChar : Nat
deriving DecidableEq, Repr

/-- Embedding of `DetachKey.IsEscapeSequence`: the key is an escape
sequence when its escape char is nonzero. -/
def DetachKey.isEscapeSequence (d : DetachKey) : Bool :=
  d.escapeChar != 0

/-- Embedding of `DefaultDetachKeys`: one escape-sequence key with escape
char 126, the tilde. -/
def DefaultDetachKeys : List DetachKey :=
  [⟨0, 126⟩]

/-- The escape-sequence state of the client: `afterNewline`, the buffered
escape char `sawEscapeChar` (0 if none), and the terminal-escape-sequence
flag `inEscSeq`. -/
structure ClientState where
  afterNewline : Bool
  sawEscapeChar : Nat
  inEscSeq : Bool
deriving DecidableEq, Repr

/-- State at `Attach` time: `afterNewline` starts true. -/
def initialClientState : ClientState :=
  ⟨true, 0, false⟩

/-- Embedding of `Client.isEscapeChar`: the byte equals the escape char of
some configured escape-sequence key. -/
def isEscapeChar (keys : List DetachKey) (b : Nat) : Bool :=
  keys.any fun dk => dk.isEscapeSequence && dk.escapeChar == b

/-- The control-byte test done first for each input byte in
`Client.handleInput`: the byte equals the control key of some configured
non-escape-sequence key. -/
def isCtrlDetach (keys : List DetachKey) (b : Nat) : Bool :=
  keys.any fun dk => !dk.isEscapeSequence && b == dk.ctrlKey

/-- Embedding of the per-read-chunk loop of `Client.handleInput`.
`toSend` is the accumulator of the same name; the result is the bytes the
chunk sends as its Input frame, the final state, and whether a detach
fired.  On a detach the function returns without sending `toSend`, exactly
as the Go code returns from `handleInput` without writing the frame. -/
def processChunk (keys : List DetachKey) :
    ClientState → List Nat → List Nat → List Nat × ClientState × Bool
  | st, toSend, [] => (toSend, st, false)
  | st, toSend, b :: rest =>
    if isCtrlDetach keys b then ([], st, true)
    else if st.sawEscapeChar ≠ 0 then
      if b == 46 then ([], ⟨st.afterNewline, 0, st.inEscSeq⟩, true)
      else if b == st.sawEscapeChar then
        processChunk keys ⟨b == 10 || b == 13, 0, st.inEscSeq⟩
          (toSend ++ [st.sawEscapeChar]) rest
      else
        processChunk keys ⟨b == 10 || b == 13, 0, st.inEscSeq⟩
          (toSend ++ [st.sawEscapeChar, b]) rest
    else if st.afterNewline && isEscapeChar keys b then
      processChunk keys ⟨false, b, st.inEscSeq⟩ toSend rest
    else
      processChunk keys
        (if b == 27 then ⟨st.afterNewline, st.sawEscapeChar, true⟩
         else if st.inEscSeq then
           if (65 ≤ b && b ≤ 90) || (97 ≤ b && b ≤ 122) then
             ⟨st.afterNewline, st.sawEscapeChar, false⟩
           else st
         else if b == 10 || b == 13 then ⟨true, st.sawEscapeChar, st.inEscSeq⟩
         else if 32 ≤ b && b < 127 then ⟨false, st.sawEscapeChar, st.inEscSeq⟩
         else st)
        (toSend ++ [b]) rest

/-- Embedding of the input read loop of the client: each element of `chunks`
is the byte slice of one `os.Stdin.Read`; the emitted bytes of all Input
frames are concatenated.  Processing stops at the first detach. -/
def processInput (keys : List DetachKey) :
    ClientState → List (List Nat) → List Nat × ClientState × Bool
  | st, [] => ([], st, false)
  | st, chunk :: rest =>
    match processChunk keys st [] chunk with
    | (sent, st2, true) => (sent, st2, true)
    | (sent, st2, false) =>
      match processInput keys st2 rest with
      | (sent2, st3, det) => (sent ++ sent2, st3, det)

/-- Specification-side per-byte transition of the detach state machine,
following the numbered algorithm of the specification: (1) a configured
control byte detaches; (2) a buffered escape char then sees a period
(detach), itself (emit it once), or anything else (emit both); (3) an
escape char in the after-newline state is buffered, not emitted; (4) any
other byte is emitted and the newline / terminal-escape flags are
updated.  The result is the bytes this byte emits, the next state, and
whether the machine detaches here. -/
def stepByte (keys : List DetachKey) (st : ClientState) (b : Nat) :
    List Nat × ClientState × Bool :=
  if isCtrlDetach keys b then ([], st, true)
  else if st.sawEscapeChar ≠ 0 then
    if b == 46 then ([], ⟨st.afterNewline, 0, st.inEscSeq⟩, true)
    else if b == st.sawEscapeChar then
      ([st.sawEscapeChar], ⟨b == 10 || b == 13, 0, st.inEscSeq⟩, false)
    else
      ([st.sawEscapeChar, b], ⟨b == 10 || b == 13, 0, st.inEscSeq⟩, false)
  else if st.afterNewline && isEscapeChar keys b then
    ([], ⟨false, b, st.inEscSeq⟩, false)
  else
    ([b],
     if b == 27 then ⟨st.afterNewline, st.sawEscapeChar, true⟩
     else if st.inEscSeq then
       if (65 ≤ b && b ≤ 90) || (97 ≤ b && b ≤ 122) then
         ⟨st.afterNewline, st.sawEscapeChar, false⟩
       else st
     else if b == 10 || b == 13 then ⟨true, st.sawEscapeChar, st.inEscSeq⟩
     else if 32 ≤ b && b < 127 then ⟨false, st.sawEscapeChar, st.inEscSeq⟩
     else st,
     false)

/-- Specification-side description of one read chunk: the bytes of the
chunk pass one by one through `stepByte` and their emissions are
concatenated; if any byte detaches, the whole chunk emits nothing (the
pending Input frame is discarded) and processing terminates. -/
def specChunk (keys : List DetachKey) :
    ClientState → List Nat → List Nat × ClientState × Bool
  | st, [] => ([], st, false)
  | st, b :: rest =>
    match stepByte keys st b with
    | (_, st2, true) => ([], st2, true)
    | (out, st2, false) =>
      match specChunk keys st2 rest with
      | (_, st3, true) => ([], st3, true)
      | (out2, st3, false) => (out ++ out2, st3, false)

/-- Specification-side description of the whole input: chunks are
processed in order by `specChunk`, their emissions concatenated, stopping
at the first detach. -/
def specRun (keys : List DetachKey) :
    ClientState → List (List Nat) → List Nat × ClientState × Bool
  | st, [] => ([], st, false)
  | st, chunk :: rest =>
    match specChunk keys st chunk with
    | (_, st2, true) => ([], st2, true)
    | (out, st2, false) =>
      match specRun keys st2 rest with
      | (out2, st3, det) => (out ++ out2, st3, det)

theorem processChunk_eq_specChunk (keys : List DetachKey) (chunk : List Nat)
    (st : ClientState) (toSend : List Nat) :
    processChunk keys st toSend chunk =
      match specChunk keys st chunk with
      | (_, st2, true) => ([], st2, true)
      | (out, st2, false) => (toSend ++ out, st2, false) := by
  induction chunk generalizing st toSend with
  | nil => simp [processChunk, specChunk]
  | cons b rest ih =>
    simp only [processChunk, specChunk, stepByte]
    by_cases h1 : isCtrlDetach keys b = true
    · simp [h1]
    · simp only [if_neg h1]
      by_cases h2 : st.sawEscapeChar ≠ 0
      · simp only [if_pos h2]
        by_cases h3 : (b == 46) = true
        · simp [h3]
        · simp only [if_neg h3]
          by_cases h4 : (b == st.sawEscapeChar) = true
          · simp only [if_pos h4, ih]
            cases hs : specChunk keys ⟨b == 10 || b == 13, 0, st.inEscSeq⟩ rest with
            | mk out2 r =>
              cases r with
              | mk st3 det =>
                cases det <;> simp [List.append_assoc]
          · simp only [if_neg h4, ih]
            cases hs : specChunk keys ⟨b == 10 || b == 13, 0, st.inEscSeq⟩ rest with
            | mk out2 r =>
              cases r with
              | mk st3 det =>
                cases det <;> simp [List.append_assoc]
      · simp only [if_neg h2]
        by_cases h5 : (st.afterNewline && isEscapeChar keys b) = true
        · simp only [if_pos h5, ih]
          cases hs : specChunk keys ⟨false, b, st.inEscSeq⟩ rest with
          | mk out2 r =>
            cases r with
            | mk st3 det =>
              cases det <;> simp
        · simp only [if_neg h5, ih]
          cases hs : specChunk keys
              (if b == 27 then ⟨st.afterNewline, st.sawEscapeChar, true⟩
               else if st.inEscSeq then
                 if (65 ≤ b && b ≤ 90) || (97 ≤ b && b ≤ 122) then
                   ⟨st.afterNewline, st.sawEscapeChar, false⟩
                 else st
               else if b == 10 || b == 13 then ⟨true, st.sawEscapeChar, st.inEscSeq⟩
               else if 32 ≤ b && b < 127 then ⟨false, st.sawEscapeChar, st.inEscSeq⟩
               else st) rest with
          | mk out2 r =>
            cases r with
            | mk st3 det =>
              cases det <;> simp [List.append_assoc]

theorem processInput_eq_specRun (keys : List DetachKey) (chunks : List (List Nat))
    (st : ClientState) :
    processInput keys st chunks = specRun keys st chunks := by
  induction chunks generalizing st with
  | nil => rfl
  | cons chunk rest ih =>
    simp only [processInput, specRun, processChunk_eq_specChunk]
    cases hs : specChunk keys st chunk with
    | mk out r =>
      cases r with
      | mk st2 det =>
        cases det
        · simp [ih]
        · simp

/-! ## The per-client handler of the server (`Server.handleClient`, server source) -/

/-- One entry of the `clients` map of the server: a connection identifier and
the stored window size (both 0 until a Resize message arrives). -/
structure ConnEntry where
  conn : Nat
  rows : Nat
  cols : Nat
deriving DecidableEq, Repr

/-- Lookup of `s.clients[conn]`. -/
def findConn (clients : List ConnEntry) (conn : Nat) : Option ConnEntry :=
  clients.find? fun e => e.conn == conn

/-- Store the window size of a client, as the Resize branch does through the
`clientInfo` pointer. -/
def setConnSize (clients : List ConnEntry) (conn rows cols : Nat) : List ConnEntry :=
  clients.map fun e => if e.conn == conn then ⟨conn, rows, cols⟩ else e

/-- Removal of `conn` from the clients map (`delete(s.clients, conn)`). -/
def eraseConn (clients : List ConnEntry) (conn : Nat) : List ConnEntry :=
  clients.filter fun e => !(e.conn == conn)

/-- The deferred resize of `handleClient`: after removing the client, the
PTY is resized to the nonzero size of some remaining client, if any (the Go
`range` over the map picks an arbitrary one; here the first in the list). -/
def cleanupResize (clients : List ConnEntry) : List (Nat × Nat) :=
  match clients.find? (fun e => 0 < e.rows && 0 < e.cols) with
  | some e => [(e.rows, e.cols)]
  | none => []

theorem readMessage_rest_length_lt {s : List Nat} {t : Nat} {data rest : List Nat}
    (h : readMessage s = some (t, data, rest)) : rest.length < s.length := by
  match s with
  | [] => simp [readMessage] at h
  | [_] => simp [readMessage] at h
  | [_, _] => simp [readMessage] at h
  | [_, _, _] => simp [readMessage] at h
  | [_, _, _, _] => simp [readMessage] at h
  | a :: b :: c :: d :: e :: tail =>
    simp only [readMessage] at h
    by_cases h1 : readBE32 b c d e > 1048576
    · simp [if_pos h1] at h
    · rw [if_neg h1] at h
      by_cases h2 : tail.length < readBE32 b c d e
      · simp [if_pos h2] at h
      · rw [if_neg h2] at h
        simp only [Option.some.injEq, Prod.mk.injEq] at h
        obtain ⟨-, -, h3⟩ := h
        subst h3
        simp only [List.length_drop, List.length_cons]
        omega

/-- Embedding of the message loop of `Server.handleClient`: while the
`done` channel is open, read a frame; on any read error return; on an
Input frame, first resize the PTY to the stored size of this client if it is
nonzero, then write the payload to the PTY; on a Resize frame of at least
4 payload bytes, decode rows and cols (big-endian u16 each), store them
for this client, and resize the PTY.  The result is the final clients
map, the list of PTY writes, and the list of PTY resize calls. -/
def clientMsgLoop (done : Bool) (conn : Nat) (clients : List ConnEntry)
    (stream : List Nat) : List ConnEntry × List (List Nat) × List (Nat × Nat) :=
  if done then (clients, [], []) else
  match h : readMessage stream with
  | none => (clients, [], [])
  | some (msgType, data, rest) =>
    if msgType == MsgInput then
      let pre : List (Nat × Nat) :=
        match findConn clients conn with
        | some e => if 0 < e.rows && 0 < e.cols then [(e.rows, e.cols)] else []
        | none => []
      let r := clientMsgLoop done conn clients rest
      (r.1, data :: r.2.1, pre ++ r.2.2)
    else if msgType == MsgResize then
      match data with
      | r1 :: r2 :: c1 :: c2 :: _ =>
        let r := clientMsgLoop done conn
          (setConnSize clients conn (r1 * 256 + r2) (c1 * 256 + c2)) rest
        (r.1, r.2.1, (r1 * 256 + r2, c1 * 256 + c2) :: r.2.2)
      | _ => clientMsgLoop done conn clients rest
    else clientMsgLoop done conn clients rest
termination_by stream.length
decreasing_by
  all_goals exact readMessage_rest_length_lt h

/-- Result of a client handler run: final clients map, PTY writes, PTY
resize calls, whether the connection was closed, and the `done`
state (the handler never closes `done`, so it passes through). -/
structure HandlerResult where
  clients : List ConnEntry
  ptyWrites : List (List Nat)
  ptyResizes : List (Nat × Nat)
  connClosed : Bool
  serverDone : Bool
deriving DecidableEq, Repr

/-- Embedding of the message-loop-plus-deferred-cleanup part of
`Server.handleClient`: run the message loop until it returns, then remove
the client from the map, resize the PTY to the nonzero size of a remaining
size if any, and close the connection. -/
def handleClientMessages (done : Bool) (conn : Nat) (clients : List ConnEntry)
    (stream : List Nat) : HandlerResult :=
  match clientMsgLoop done conn clients stream with
  | (cl, writes, resizes) =>
    ⟨eraseConn cl conn, writes, resizes ++ cleanupResize (eraseConn cl conn), true, done⟩

/-! ## PTY window size -/

/-- The window size of the PTY master. -/
structure Winsize where
  rows : Nat
  cols : Nat
deriving DecidableEq, Repr

/-- Modelled from the spec: the current pty.go of the repository is not among
the provided source files (the included older revision declares
StartPTY(command) while the server calls StartPTY(name, command), so that
file predates the server source).  The specification says: resize(rows,
cols) sets the window size on the master; out-of-range or zero values are
ignored.  Rows and cols arrive as decoded u16 values, so only the zero
case can be out of range. -/
def resizePTY (w : Winsize) (rows cols : Nat) : Winsize :=
  if rows == 0 || cols == 0 then w else ⟨rows, cols⟩

/-- The window size after a sequence of resize calls. -/
def applyResizes (w : Winsize) (calls : List (Nat × Nat)) : Winsize :=
  calls.foldl (fun w rc => resizePTY w rc.1 rc.2) w

/-! ## Session registry (`session.go`) -/

/-- A parsed session descriptor, reduced to the fields the registry
claims use. -/
structure SessionRec where
  name : String
  pid : Nat
deriving DecidableEq, Repr

/-- The data directory, described by which session names currently have a
socket file, a descriptor file, and an error file.  (The name stem and the
fixed extensions .sock, .json, .err determine the file names injectively,
so keeping one list per extension is faithful to the flat directory.) -/
structure DataDirState where
  sockFiles : List String
  jsonFiles : List String
  errFiles : List String
deriving DecidableEq, Repr

/-- Embedding of `Exists`: stat the socket path and report success; the
descriptor and the recorded pid are never consulted. -/
def sessionExists (d : DataDirState) (name : String) : Bool :=
  d.sockFiles.contains name

/-- Embedding of `Load`, abstracting file reading and JSON decoding into
a `parse` oracle: loading fails when the descriptor file is absent,
otherwise it returns whatever the file parses to. -/
def Load (d : DataDirState) (parse : String → Option SessionRec)
    (name : String) : Option SessionRec :=
  if d.jsonFiles.contains name then parse name else none

/-- Embedding of `Remove`: delete the socket, descriptor and
error files; missing files are not errors. -/
def Remove (d : DataDirState) (name : String) : DataDirState :=
  ⟨d.sockFiles.filter (fun m => !(m == name)),
   d.jsonFiles.filter (fun m => !(m == name)),
   d.errFiles.filter (fun m => !(m == name))⟩

/-- Embedding of the loop in `List`: iterate over the directory entries
whose name ends in .json (the entry list is the snapshot `os.ReadDir`
returned), load each descriptor, skip entries that fail to load, remove
stale entries whose pid is not alive, and collect the rest.  `alive`
abstracts `isProcessRunning`. -/
def listGo (parse : String → Option SessionRec) (alive : Nat → Bool) :
    List String → DataDirState → List SessionRec × DataDirState
  | [], d => ([], d)
  | name :: rest, d =>
    match Load d parse name with
    | none => listGo parse alive rest d
    | some s =>
      if alive s.pid then
        (s :: (listGo parse alive rest d).1, (listGo parse alive rest d).2)
      else listGo parse alive rest (Remove d name)

/-- Embedding of `List`: process every descriptor entry of the data
directory in order. -/
def sessionList (parse : String → Option SessionRec) (alive : Nat → Bool)
    (d : DataDirState) : List SessionRec × DataDirState :=
  listGo parse alive d.jsonFiles d

/-- Result of sending signal 0 to a pid, as seen by `isProcessRunning`. -/
inductive SignalResult where
  | success
  | noSuchProcess
  | permissionDenied
deriving DecidableEq, Repr

/-- Embedding of `isProcessRunning`: send signal 0 and report whether the
returned error is nil. -/
def isProcessRunning (r : SignalResult) : Bool :=
  r == SignalResult.success

/-! ## Detach-key textual grammar (`ParseDetachKey`, client source).
Go strings are byte strings, so they are embedded as `List Nat`. -/

/-- The bytes of the string ctrl- . -/
def ctrlLowerBytes : List Nat := [99, 116, 114, 108, 45]

/-- The bytes of the string Ctrl- . -/
def ctrlUpperBytes : List Nat := [67, 116, 114, 108, 45]

/-- The bytes of the token backslash. -/
def backslashTok : List Nat := [98, 97, 99, 107, 115, 108, 97, 115, 104]

/-- The bytes of the token caret. -/
def caretTok : List Nat := [99, 97, 114, 101, 116]

/-- The bytes of the token underscore. -/
def underscoreTok : List Nat := [117, 110, 100, 101, 114, 115, 99, 111, 114, 101]

/-- Embedding of `parseCtrlChar`: the special tokens for the control
bytes 27 to 31, then single letters mapping to 1 to 26. -/
def parseCtrlChar (char : List Nat) : Option Nat :=
  if char = [91] then some 27
  else if char = [92] ∨ char = backslashTok then some 28
  else if char = [93] then some 29
  else if char = [94] ∨ char = caretTok then some 30
  else if char = [95] ∨ char = underscoreTok then some 31
  else
    match char with
    | [c] =>
      if 97 ≤ c ∧ c ≤ 122 then some (c - 97 + 1)
      else if 65 ≤ c ∧ c ≤ 90 then some (c - 65 + 1)
      else none
    | _ => none

/-- Embedding of `ParseDetachKey`: the empty string is an error; a
two-byte string ending in a period is an escape-sequence key; a string of
length at least 6 starting with ctrl- or Ctrl- whose remainder parses as
a control char is a control-byte key; a string of length at least 2
starting with a caret whose remainder parses as a control char is a
control-byte key; anything else is an error (`none`). -/
def ParseDetachKey (s : List Nat) : Option DetachKey :=
  match s with
  | [] => none
  | [c, 46] => some ⟨0, c⟩
  | _ =>
    match (if 6 ≤ s.length ∧ (s.take 5 = ctrlLowerBytes ∨ s.take 5 = ctrlUpperBytes)
           then parseCtrlChar (s.drop 5) else none) with
    | some key => some ⟨key, 0⟩
    | none =>
      match (if 2 ≤ s.length ∧ s.head? = some 94
             then parseCtrlChar (s.drop 1) else none) with
      | some key => some ⟨key, 0⟩
      | none => none

/-! ## Helper lemmas about the registry loop -/

theorem mem_Remove {d : DataDirState} {name other : String} :
    (other ∈ (Remove d name).sockFiles → other ∈ d.sockFiles) ∧
    (other ∈ (Remove d name).jsonFiles → other ∈ d.jsonFiles) ∧
    (other ∈ (Remove d name).errFiles → other ∈ d.errFiles) := by
  unfold Remove
  exact ⟨fun h => (List.mem_filter.mp h).1, fun h => (List.mem_filter.mp h).1,
    fun h => (List.mem_filter.mp h).1⟩

theorem listGo_all_alive (parse : String → Option SessionRec) (alive : Nat → Bool)
    (entries : List String) (d : DataDirState) :
    ∀ s ∈ (listGo parse alive entries d).1, alive s.pid = true := by
  induction entries generalizing d with
  | nil => simp [listGo]
  | cons name rest ih =>
    intro s hs
    simp only [listGo] at hs
    split at hs
    · exact ih d s hs
    · rename_i rec hL
      split at hs
      · rename_i ha
        simp only [List.mem_cons] at hs
        cases hs with
        | inl h => rw [h]; exact ha
        | inr h => exact ih d s h
      · exact ih (Remove d name) s hs

/-- Absence of a name from all three file lists. -/
def staleAbsent (d : DataDirState) (name : String) : Prop :=
  name ∉ d.sockFiles ∧ name ∉ d.jsonFiles ∧ name ∉ d.errFiles

theorem staleAbsent_Remove (d : DataDirState) (name : String) :
    staleAbsent (Remove d name) name := by
  unfold staleAbsent Remove
  refine ⟨fun h => ?_, fun h => ?_, fun h => ?_⟩ <;>
    simpa using (List.mem_filter.mp h).2

theorem staleAbsent_Remove_of (d : DataDirState) (name other : String)
    (h : staleAbsent d name) : staleAbsent (Remove d other) name :=
  ⟨fun hm => h.1 (mem_Remove.1 hm), fun hm => h.2.1 (mem_Remove.2.1 hm),
    fun hm => h.2.2 (mem_Remove.2.2 hm)⟩

theorem listGo_preserves_absent (parse : String → Option SessionRec)
    (alive : Nat → Bool) (name : String) (entries : List String) (d : DataDirState)
    (h : staleAbsent d name) :
    staleAbsent (listGo parse alive entries d).2 name := by
  induction entries generalizing d with
  | nil => simpa [listGo] using h
  | cons n rest ih =>
    simp only [listGo]
    split
    · exact ih d h
    · rename_i rec hL
      split
      · exact ih d h
      · exact ih (Remove d n) (staleAbsent_Remove_of d name n h)

theorem listGo_removes_stale (parse : String → Option SessionRec)
    (alive : Nat → Bool) {name : String} {s : SessionRec}
    (hp : parse name = some s) (hdead : alive s.pid = false) :
    ∀ entries d, name ∈ entries → (staleAbsent d name ∨ name ∈ d.jsonFiles) →
      staleAbsent (listGo parse alive entries d).2 name := by
  intro entries
  induction entries with
  | nil => intro d h; simp at h
  | cons n rest ih =>
    intro d hmem hpre
    by_cases hn : n = name
    · subst hn
      simp only [listGo]
      by_cases hj : n ∈ d.jsonFiles
      · have hL : Load d parse n = some s := by
          simp [Load, hj, hp]
        split
        · rename_i heq
          rw [hL] at heq
          exact absurd heq (by simp)
        · rename_i rec heq
          rw [hL] at heq
          injection heq with heq2
          subst heq2
          rw [if_neg (by simp [hdead])]
          exact listGo_preserves_absent parse alive n rest (Remove d n)
            (staleAbsent_Remove d n)
      · have habs : staleAbsent d n := by
          cases hpre with
          | inl h => exact h
          | inr h => exact absurd h hj
        have hL : Load d parse n = none := by
          simp [Load, hj]
        split
        · exact listGo_preserves_absent parse alive n rest d habs
        · rename_i rec heq
          rw [hL] at heq
          exact absurd heq (by simp)
    · have hmem2 : name ∈ rest := by
        cases List.mem_cons.mp hmem with
        | inl h => exact absurd h.symm hn
        | inr h => exact h
      simp only [listGo]
      split
      · exact ih d hmem2 hpre
      · rename_i rec hL
        split
        · exact ih d hmem2 hpre
        · refine ih (Remove d n) hmem2 ?_
          cases hpre with
          | inl h => exact Or.inl (staleAbsent_Remove_of d name n h)
          | inr h =>
            refine Or.inr ?_
            simp only [Remove, List.mem_filter]
            refine ⟨h, ?_⟩
            simp only [Bool.not_eq_eq_eq_not, Bool.not_true, beq_eq_false_iff_ne]
            exact fun he => hn he.symm

/-! ## Further helper lemmas -/

theorem clientMsgLoop_none {done : Bool} {conn : Nat} {clients : List ConnEntry}
    {stream : List Nat} (h : readMessage stream = none) :
    clientMsgLoop done conn clients stream = (clients, [], []) := by
  rw [clientMsgLoop]
  by_cases hd : done = true
  · rw [if_pos hd]
  · rw [if_neg hd]
    split
    · rfl
    · rename_i t d rest heq
      rw [h] at heq
      exact absurd heq (by simp)

theorem clientMsgLoop_resize_step {conn : Nat} {clients : List ConnEntry}
    {stream : List Nat} {r1 r2 c1 c2 : Nat} {tail rest : List Nat}
    (h : readMessage stream = some (MsgResize, r1 :: r2 :: c1 :: c2 :: tail, rest)) :
    clientMsgLoop false conn clients stream =
      ((clientMsgLoop false conn
          (setConnSize clients conn (r1 * 256 + r2) (c1 * 256 + c2)) rest).1,
       (clientMsgLoop false conn
          (setConnSize clients conn (r1 * 256 + r2) (c1 * 256 + c2)) rest).2.1,
       (r1 * 256 + r2, c1 * 256 + c2) ::
         (clientMsgLoop false conn
            (setConnSize clients conn (r1 * 256 + r2) (c1 * 256 + c2)) rest).2.2) := by
  rw [clientMsgLoop]
  rw [if_neg (by simp)]
  split
  · rename_i heq
    rw [h] at heq
    exact absurd heq (by simp)
  · rename_i t d r heq
    rw [h] at heq
    simp only [Option.some.injEq, Prod.mk.injEq] at heq
    obtain ⟨h1, h2, h3⟩ := heq
    subst h1; subst h2; subst h3
    simp [MsgResize, MsgInput]

theorem appendOutput_at_cap {buf : List Nat} (b : Nat) (h : buf.length = 1048576) :
    appendOutput buf [b] = buf.drop 1 ++ [b] := by
  unfold appendOutput
  have hl : (buf ++ [b]).length = 1048577 := by simp [h]
  have h2 : (1048577 : Nat) - 1048576 = 1 := by norm_num
  rw [if_pos (by omega), hl, h2, List.drop_append_of_le_length (by omega)]

theorem ParseDetachKey_lower_all :
    ∀ c, c < 123 → 97 ≤ c →
      ParseDetachKey (ctrlLowerBytes ++ [c]) = some ⟨c - 97 + 1, 0⟩ ∧
      ParseDetachKey (ctrlUpperBytes ++ [c]) = some ⟨c - 97 + 1, 0⟩ ∧
      ParseDetachKey [94, c] = some ⟨c - 97 + 1, 0⟩ := by decide

theorem ParseDetachKey_upper_all :
    ∀ c, c < 91 → 65 ≤ c →
      ParseDetachKey (ctrlLowerBytes ++ [c]) = some ⟨c - 65 + 1, 0⟩ ∧
      ParseDetachKey (ctrlUpperBytes ++ [c]) = some ⟨c - 65 + 1, 0⟩ ∧
      ParseDetachKey [94, c] = some ⟨c - 65 + 1, 0⟩ := by decide

/-! ## Claim C1 -/

/-- C1 counterexample.  The claim states that the concatenation of bytes
emitted by the detach state machine equals the input stream up to the
listed exceptions.  Two concrete runs with the default detach keys refute
it: (1) the single read chunk 97, 13, 126, 46 (the characters a, CR, tilde,
period) triggers an escape-sequence detach at the final period, and the
machine emits nothing at all, although the claim requires the bytes 97, 13
preceding the escape sequence to be emitted (the Go code discards the
accumulated toSend buffer when it detaches mid-chunk); (2) the input
consisting of the single byte 126 (a tilde right after attach) emits
nothing and does not detach, although no listed exception covers that
byte, because the tilde stays buffered in sawEscapeChar. -/
theorem c1_counterexample :
    (processInput DefaultDetachKeys initialClientState [[97, 13, 126, 46]]).1 = [] ∧
    (processInput DefaultDetachKeys initialClientState [[97, 13, 126, 46]]).2.2 = true ∧
    (processInput DefaultDetachKeys initialClientState [[126]]).1 = [] ∧
    (processInput DefaultDetachKeys initialClientState [[126]]).2.2 = false := by
  decide

/-- C1 amended.  The embedded input loop of Client.handleInput agrees,
for every key configuration, start state and chunked input, with the
specification-side per-byte machine in which (a) a configured control
byte detaches without being emitted, (b) a buffered escape char followed
by a period detaches with neither byte emitted, (c) a doubled escape
char emits a single copy, every other byte is emitted verbatim, and
additionally (d) when a detach fires, the bytes of the same read chunk
that were still waiting to be flushed are discarded with it, and (e) an
escape char buffered at the end of the input remains unsent.  In
particular two tildes in a row at line start emit exactly one tilde and
reset the machine (second conjunct). -/
theorem c1_detach_machine_amended :
    (∀ (keys : List DetachKey) (st : ClientState) (chunks : List (List Nat)),
        processInput keys st chunks = specRun keys st chunks) ∧
    processInput DefaultDetachKeys initialClientState [[126, 126]] =
      ([126], ⟨false, 0, false⟩, false) :=
  ⟨fun keys st chunks => processInput_eq_specRun keys chunks st, by decide⟩

/-! ## Claim C2 -/

/-- C2.  After the PTY reader has processed any sequence of reads, the
replay buffer holds at most 1048576 bytes and is a suffix of the
concatenation of all bytes read from the PTY so far; and when the buffer
holds exactly 1048576 bytes, appending one more byte evicts exactly one
byte from the front. -/
theorem c2_replay_buffer_invariant (chunks : List (List Nat)) :
    (replayAfter chunks).length ≤ 1048576 ∧
    replayAfter chunks <:+ chunks.flatten ∧
    ∀ b : Nat, (replayAfter chunks).length = 1048576 →
      replayAfter (chunks ++ [[b]]) = (replayAfter chunks).drop 1 ++ [b] := by
  refine ⟨replayAfter_length_le chunks, replayAfter_suffix chunks, ?_⟩
  intro b h
  have hstep : replayAfter (chunks ++ [[b]]) = appendOutput (replayAfter chunks) [b] := by
    simp [replayAfter, List.foldl_append]
  rw [hstep, appendOutput_at_cap b h]

/-- C2 witness: a buffer filled to exactly 1048576 bytes evicts one byte
when one more arrives. -/
theorem c2_replay_buffer_invariant_witness :
    replayAfter ([List.replicate 1048576 0] ++ [[7]]) =
      (replayAfter [List.replicate 1048576 0]).drop 1 ++ [7] :=
  (c2_replay_buffer_invariant [List.replicate 1048576 0]).2.2 7
    (by
      show (List.foldl appendOutput [] [List.replicate 1048576 0]).length = 1048576
      rw [List.foldl_cons, List.foldl_nil]
      unfold appendOutput
      rw [List.nil_append,
        if_neg (by rw [List.length_replicate]; omega)]
      exact List.length_replicate 1048576 0)

/-! ## Claim C3 -/

/-- C3.  For every message type byte and payload of at most 1048576
bytes, writeMessage followed by readMessage returns the original type and
payload (with the stream fully consumed). -/
theorem c3_frame_roundtrip (msgType : Nat) (data : List Nat)
    (htype : msgType < 256) (hbytes : ∀ x ∈ data, x < 256)
    (hlen : data.length ≤ 1048576) :
    readMessage (writeMessage msgType data) = some (msgType, data, []) := by
  simpa using readMessage_writeMessage msgType data [] hlen

/-- C3 witness at a concrete frame. -/
theorem c3_frame_roundtrip_witness :
    readMessage (writeMessage 2 [104, 105]) = some (2, [104, 105], []) :=
  c3_frame_roundtrip 2 [104, 105] (by decide) (by decide) (by decide)

/-! ## Claim C4 -/

/-- C4.  A frame whose declared length is exactly 1048576 is accepted by
readMessage; a frame whose declared length exceeds 1048576 is rejected
regardless of what, if anything, follows the header (the payload is not
read); and when readMessage fails, the client handler returns, removing
the connection from the clients map (so no entry for it remains) and
closing it, while the server keeps running (its done flag is untouched). -/
theorem c4_frame_limit_and_drop :
    (∀ (msgType : Nat) (data rest : List Nat), data.length = 1048576 →
        readMessage (writeMessage msgType data ++ rest) = some (msgType, data, rest)) ∧
    (∀ (t a b c d : Nat) (rest : List Nat), 1048576 < readBE32 a b c d →
        readMessage (t :: a :: b :: c :: d :: rest) = none) ∧
    (∀ (conn : Nat) (clients : List ConnEntry) (stream : List Nat),
        readMessage stream = none →
        handleClientMessages false conn clients stream =
          ⟨eraseConn clients conn, [], cleanupResize (eraseConn clients conn),
            true, false⟩) ∧
    (∀ (clients : List ConnEntry) (conn : Nat),
        ∀ e ∈ eraseConn clients conn, e.conn ≠ conn) := by
  refine ⟨?_, ?_, ?_, ?_⟩
  · intro msgType data rest h
    exact readMessage_writeMessage msgType data rest (le_of_eq h)
  · intro t a b c d rest h
    simp only [readMessage]
    rw [if_pos (by omega)]
  · intro conn clients stream h
    unfold handleClientMessages
    rw [clientMsgLoop_none h]
    rfl
  · intro clients conn e he
    have := (List.mem_filter.mp he).2
    simpa using this

/-- C4 witness: the boundary length 1048576 is accepted; the header
declaring 1048577 is rejected with nothing after it; a handler fed that
header removes and closes its client while the server stays up. -/
theorem c4_frame_limit_and_drop_witness :
    readMessage (writeMessage 2 (List.replicate 1048576 0) ++ []) =
      some (2, List.replicate 1048576 0, []) ∧
    readMessage [2, 0, 16, 0, 1] = none ∧
    handleClientMessages false 5 [⟨5, 0, 0⟩, ⟨8, 24, 80⟩] [2, 0, 16, 0, 1] =
      ⟨eraseConn [⟨5, 0, 0⟩, ⟨8, 24, 80⟩] 5, [],
        cleanupResize (eraseConn [⟨5, 0, 0⟩, ⟨8, 24, 80⟩] 5), true, false⟩ ∧
    (⟨8, 24, 80⟩ : ConnEntry).conn ≠ 5 :=
  ⟨c4_frame_limit_and_drop.1 2 (List.replicate 1048576 0) []
      (List.length_replicate 1048576 0),
   c4_frame_limit_and_drop.2.1 2 0 16 0 1 [] (by decide),
   c4_frame_limit_and_drop.2.2.1 5 [⟨5, 0, 0⟩, ⟨8, 24, 80⟩] [2, 0, 16, 0, 1] (by decide),
   c4_frame_limit_and_drop.2.2.2 [⟨5, 0, 0⟩, ⟨8, 24, 80⟩] 5 ⟨8, 24, 80⟩ (by decide)⟩

/-! ## Claim C5 -/

/-- C5.  Resize requests with zero rows or cols are ignored (the window
size is unchanged), nonzero requests take effect; and the server path for
a Resize message decodes the two big-endian u16 fields and issues exactly
that resize call to the PTY, so the same zero rule applies to it through
resizePTY. -/
theorem c5_resize_zero_ignored :
    (∀ (w : Winsize) (rows cols : Nat), rows = 0 ∨ cols = 0 →
        resizePTY w rows cols = w) ∧
    (∀ (w : Winsize) (rows cols : Nat), rows ≠ 0 → cols ≠ 0 →
        resizePTY w rows cols = ⟨rows, cols⟩) ∧
    (∀ (conn : Nat) (clients : List ConnEntry) (r1 r2 c1 c2 : Nat),
        (clientMsgLoop false conn clients (writeMessage MsgResize [r1, r2, c1, c2])).2.2 =
          [(r1 * 256 + r2, c1 * 256 + c2)]) ∧
    (∀ (w : Winsize) (rows cols : Nat),
        applyResizes w [(rows, cols)] = resizePTY w rows cols) := by
  refine ⟨?_, ?_, ?_, ?_⟩
  · intro w rows cols h
    unfold resizePTY
    rcases h with h | h <;> subst h <;> simp
  · intro w rows cols h1 h2
    unfold resizePTY
    rw [if_neg (by simp [h1, h2])]
  · intro conn clients r1 r2 c1 c2
    have hrm : readMessage (writeMessage MsgResize [r1, r2, c1, c2]) =
        some (MsgResize, r1 :: r2 :: c1 :: c2 :: [], []) := by
      simpa using readMessage_writeMessage MsgResize [r1, r2, c1, c2] [] (by simp)
    rw [clientMsgLoop_resize_step hrm, clientMsgLoop_none (by rfl)]
  · intro w rows cols
    simp [applyResizes]

/-- C5 witness: a zero-row resize leaves the size unchanged, a nonzero
resize takes effect, and the server records exactly the decoded resize
call for a Resize frame. -/
theorem c5_resize_zero_ignored_witness :
    resizePTY ⟨24, 80⟩ 0 80 = ⟨24, 80⟩ ∧
    resizePTY ⟨24, 80⟩ 50 100 = ⟨50, 100⟩ ∧
    (clientMsgLoop false 1 [⟨1, 0, 0⟩] (writeMessage MsgResize [0, 0, 0, 80])).2.2 =
      [(0 * 256 + 0, 0 * 256 + 80)] ∧
    applyResizes ⟨24, 80⟩ [(0, 80)] = resizePTY ⟨24, 80⟩ 0 80 :=
  ⟨c5_resize_zero_ignored.1 ⟨24, 80⟩ 0 80 (Or.inl rfl),
   c5_resize_zero_ignored.2.1 ⟨24, 80⟩ 50 100 (by decide) (by decide),
   c5_resize_zero_ignored.2.2.1 1 [⟨1, 0, 0⟩] 0 0 0 80,
   c5_resize_zero_ignored.2.2.2 ⟨24, 80⟩ 0 80⟩

/-! ## Claim C6 -/

/-- C6 counterexample.  The claim states that isProcessRunning returns
true when the null signal fails with permission denied; the code returns
err == nil, so a permission-denied result yields false. -/
theorem c6_counterexample :
    isProcessRunning SignalResult.permissionDenied ≠ true := by decide

/-- C6 amended.  isProcessRunning sends the null signal and returns true
exactly when that signal reports success; every failure, the
no-such-process result and the permission-denied result alike, yields
false. -/
theorem c6_liveness_probe_amended :
    isProcessRunning SignalResult.success = true ∧
    isProcessRunning SignalResult.noSuchProcess = false ∧
    isProcessRunning SignalResult.permissionDenied = false := by decide

/-! ## Claim C7 -/

/-- C7 counterexample.  A directory in which a.sock and a.json both
exist while the pid 5 recorded in a.json draws a no-such-process result
from the null signal: the claim requires Exists to be false there (socket
present AND pid alive fails), yet sessionExists returns true, because the
code stats only the socket. -/
theorem c7_counterexample :
    sessionExists ⟨["a"], ["a"], []⟩ "a" = true ∧
    Load ⟨["a"], ["a"], []⟩ (fun n => some ⟨n, 5⟩) "a" = some ⟨"a", 5⟩ ∧
    isProcessRunning SignalResult.noSuchProcess = false := by decide

/-- C7 amended.  Exists holds exactly when the socket file is present;
it never consults the descriptor or the recorded pid, so its result is
unchanged under any change to the descriptor and error files. -/
theorem c7_exists_socket_only_amended :
    ∀ (d : DataDirState) (name : String),
      (sessionExists d name = true ↔ name ∈ d.sockFiles) ∧
      ∀ (jsonFiles2 errFiles2 : List String),
        sessionExists ⟨d.sockFiles, jsonFiles2, errFiles2⟩ name =
          sessionExists d name := by
  intro d name
  exact ⟨List.elem_iff, fun j e => rfl⟩

/-! ## Claim C8 -/

/-- C8.  Every session returned by the list operation has an alive pid,
and every descriptor entry that loads to a record with a dead pid is
reaped: after the call, its socket, descriptor and error files are all
gone from the data directory. -/
theorem c8_list_reaps_stale (parse : String → Option SessionRec) (alive : Nat → Bool)
    (d : DataDirState) :
    (∀ s ∈ (sessionList parse alive d).1, alive s.pid = true) ∧
    (∀ (name : String) (s : SessionRec), name ∈ d.jsonFiles → parse name = some s →
        alive s.pid = false →
        name ∉ (sessionList parse alive d).2.sockFiles ∧
        name ∉ (sessionList parse alive d).2.jsonFiles ∧
        name ∉ (sessionList parse alive d).2.errFiles) := by
  constructor
  · exact listGo_all_alive parse alive d.jsonFiles d
  · intro name s hmem hp hdead
    exact listGo_removes_stale parse alive hp hdead d.jsonFiles d hmem (Or.inr hmem)

/-- C8 witness: with sessions a (pid 1, dead) and bb (pid 2, alive), the
returned entry bb has an alive pid and the stale files of a are gone. -/
theorem c8_list_reaps_stale_witness :
    (fun p : Nat => p == 2) (⟨"bb", 2⟩ : SessionRec).pid = true ∧
    ("a" ∉ (sessionList (fun n => some ⟨n, n.length⟩) (fun p : Nat => p == 2)
        ⟨["a", "bb"], ["a", "bb"], ["a"]⟩).2.sockFiles ∧
     "a" ∉ (sessionList (fun n => some ⟨n, n.length⟩) (fun p : Nat => p == 2)
        ⟨["a", "bb"], ["a", "bb"], ["a"]⟩).2.jsonFiles ∧
     "a" ∉ (sessionList (fun n => some ⟨n, n.length⟩) (fun p : Nat => p == 2)
        ⟨["a", "bb"], ["a", "bb"], ["a"]⟩).2.errFiles) :=
  ⟨(c8_list_reaps_stale (fun n => some ⟨n, n.length⟩) (fun p : Nat => p == 2)
      ⟨["a", "bb"], ["a", "bb"], ["a"]⟩).1 ⟨"bb", 2⟩ (by decide),
   (c8_list_reaps_stale (fun n => some ⟨n, n.length⟩) (fun p : Nat => p == 2)
      ⟨["a", "bb"], ["a", "bb"], ["a"]⟩).2 "a" ⟨"a", 1⟩ (by decide) (by decide)
      (by decide)⟩

/-! ## Claim C9 -/

/-- C9.  ParseDetachKey implements the detach-key grammar: the empty
string is an error; a two-character string ending in a period is an
escape-sequence key with the first character as escape char; ctrl-x and
caret-x forms map letters to the control bytes 1 to 26 (both cases); and
the special tokens for left bracket, backslash (symbol and word), right
bracket, caret (symbol and word) and underscore (symbol and word) map to
the control bytes 27 to 31. -/
theorem c9_detach_key_grammar :
    (ParseDetachKey [] = none) ∧
    (∀ c : Nat, ParseDetachKey [c, 46] = some ⟨0, c⟩) ∧
    (∀ c : Nat, 97 ≤ c → c ≤ 122 →
        ParseDetachKey (ctrlLowerBytes ++ [c]) = some ⟨c - 97 + 1, 0⟩ ∧
        ParseDetachKey [94, c] = some ⟨c - 97 + 1, 0⟩) ∧
    (∀ c : Nat, 65 ≤ c → c ≤ 90 →
        ParseDetachKey (ctrlLowerBytes ++ [c]) = some ⟨c - 65 + 1, 0⟩ ∧
        ParseDetachKey [94, c] = some ⟨c - 65 + 1, 0⟩) ∧
    (ParseDetachKey (ctrlLowerBytes ++ [91]) = some ⟨27, 0⟩ ∧
     ParseDetachKey [94, 91] = some ⟨27, 0⟩) ∧
    (ParseDetachKey (ctrlLowerBytes ++ [92]) = some ⟨28, 0⟩ ∧
     ParseDetachKey (ctrlLowerBytes ++ backslashTok) = some ⟨28, 0⟩ ∧
     ParseDetachKey [94, 92] = some ⟨28, 0⟩ ∧
     ParseDetachKey (94 :: backslashTok) = some ⟨28, 0⟩) ∧
    (ParseDetachKey (ctrlLowerBytes ++ [93]) = some ⟨29, 0⟩ ∧
     ParseDetachKey [94, 93] = some ⟨29, 0⟩) ∧
    (ParseDetachKey (ctrlLowerBytes ++ [94]) = some ⟨30, 0⟩ ∧
     ParseDetachKey (ctrlLowerBytes ++ caretTok) = some ⟨30, 0⟩ ∧
     ParseDetachKey [94, 94] = some ⟨30, 0⟩ ∧
     ParseDetachKey (94 :: caretTok) = some ⟨30, 0⟩) ∧
    (ParseDetachKey (ctrlLowerBytes ++ [95]) = some ⟨31, 0⟩ ∧
     ParseDetachKey (ctrlLowerBytes ++ underscoreTok) = some ⟨31, 0⟩ ∧
     ParseDetachKey [94, 95] = some ⟨31, 0⟩ ∧
     ParseDetachKey (94 :: underscoreTok) = some ⟨31, 0⟩) := by
  refine ⟨by decide, fun c => rfl, ?_, ?_, by decide, by decide, by decide,
    by decide, by decide⟩
  · intro c h1 h2
    have h3 := ParseDetachKey_lower_all c (by omega) h1
    exact ⟨h3.1, h3.2.2⟩
  · intro c h1 h2
    have h3 := ParseDetachKey_upper_all c (by omega) h1
    exact ⟨h3.1, h3.2.2⟩

/-- C9 witness at the letter boundaries a and Z. -/
theorem c9_detach_key_grammar_witness :
    (ParseDetachKey (ctrlLowerBytes ++ [97]) = some ⟨97 - 97 + 1, 0⟩ ∧
     ParseDetachKey [94, 97] = some ⟨97 - 97 + 1, 0⟩) ∧
    (ParseDetachKey (ctrlLowerBytes ++ [90]) = some ⟨90 - 65 + 1, 0⟩ ∧
     ParseDetachKey [94, 90] = some ⟨90 - 65 + 1, 0⟩) :=
  ⟨c9_detach_key_grammar.2.2.1 97 (by decide) (by decide),
   c9_detach_key_grammar.2.2.2.1 90 (by decide) (by decide)⟩

/-! ## Claim C10 -/

/-- C10.  Whatever the PTY has produced, the replay buffer snapshot is at
most 1048576 bytes, so the single Output frame carrying it to a newly
accepted client is always decoded successfully by readMessage: the
frame-too-large branch is unreachable for snapshot frames and the codec
never drops a late joiner. -/
theorem c10_snapshot_frame_fits (chunks : List (List Nat)) :
    (replayAfter chunks).length ≤ 1048576 ∧
    readMessage (writeMessage MsgOutput (replayAfter chunks)) =
      some (MsgOutput, replayAfter chunks, []) := by
  refine ⟨replayAfter_length_le chunks, ?_⟩
  simpa using readMessage_writeMessage MsgOutput (replayAfter chunks) []
    (replayAfter_length_le chunks)

end Tuck
